import Mathlib

/-!
Verification of the peak-finding engine of `mes_peakfinder` (C source).

Modelling conventions.

* A sample buffer is a `List ℤ` of phase angles in exact fixed-point
  micro-units: the C value `10.361000f` is modelled as `10361000`.  The
  source's decimal constants all have at most six fractional digits, so this
  representation is exact; float rounding is not modelled (every comparison
  performed in the verified runs has a margin many orders of magnitude above
  a `float`'s rounding error at these magnitudes).
* The source constants scale accordingly: `NOISE_TOLERANCE = 0.9f` becomes
  `900000`, the prominence floor `18.0f` becomes `18000000`, and the no-peak
  sentinel `-1` (a float) becomes `-1000000`.  The index-valued constants
  (`PEAK_THRESHOLD = 30`, width floor `15`, 3 attempts, 3 exclusion slots)
  are unscaled.
* `prominence / 2.0f` is exact in `float`; here `prominence / 2` is integer
  (floor) division.  For integer-valued samples this is faithful: for all
  `a x p : ℤ`, `a > x - p + p / 2 ↔ 2 * a > 2 * x - p`, which is exactly the
  comparison against the untruncated half-prominence height `x - p / 2`.
  A lemma to this effect is part of the width theorem.
* C `for`/`while` loops with mutable locals become tail-recursive functions
  whose accumulators are the locals; down-counting loops recurse on the
  index, up-counting loops carry a fuel argument that callers instantiate
  large enough to cover the loop's maximal trip count (each such call site
  notes why the fuel is adequate).  `findPeakRec`'s window recursion also
  carries fuel; `processPeak` passes `size + 1`, an upper bound on the
  recursion depth since the window shrinks strictly at each level.
* The C `int` window bounds `l`, `r` are modelled as `ℤ` (the top-level call
  uses `r = size - 1`, which is `-1` for an empty buffer).  `(l + r) / 2` in
  C truncates toward zero while Lean's `ℤ` division is floor division; both
  agree on every reachable call because the guard `l > r` fires first and
  all windows reached from `processPeak` satisfy `0 ≤ l ≤ r`.
* Out-parameters (`*peakIndex`, `*isEdgeCase`) are threaded explicitly:
  `findPeakRec` takes the current `peakIndex` value `pIn` and returns the
  possibly-updated one; `processPeak` returns the triple
  `(accepted, peakIndex, isEdgeCase)`.
* `processPeakTrace` additionally returns ghost observations that the C code
  holds in locals: the list of per-trial outcomes and the final exclusion
  set.  `processPeak` is its first projection.
-/

set_option maxRecDepth 40000
set_option maxHeartbeats 4000000

/-- Phase angle of sample `i` (C `a[i].phaseAngle`) for a natural index;
out-of-range reads (never reached on the flows verified below) default
to `0`. -/
def getn (a : List ℤ) (i : ℕ) : ℤ := a.getD i 0

/-- Phase angle of sample `i` for an integer index (used where the C code
indexes with `int` arithmetic); negative indices (never reached on the
flows verified below) default to `0`. -/
def getz (a : List ℤ) (i : ℤ) : ℤ := if 0 ≤ i then a.getD i.toNat 0 else 0

/-- C `NOISE_TOLERANCE = 0.9f` in micro-units. -/
def NOISE_TOLERANCE : ℤ := 900000

/-- C `PEAK_THRESHOLD = 30` (a sample count, unscaled). -/
def PEAK_THRESHOLD : ℕ := 30

/-- The prominence floor `18.0f` (inline literal in `processPeak`) in
micro-units. -/
def PROMINENCE_MIN : ℤ := 18000000

/-- The width floor `15` (inline literal in `processPeak`, whole samples). -/
def FWHM_MIN : ℕ := 15

/-- The no-peak sentinel `-1` returned by `findPeakRec` (a float in the
source) in micro-units. -/
def NO_PEAK : ℤ := -1000000

/-- Body of `maxrow`'s `for (i = 0; i < size; i++)` loop: `max_val` and
`max_index` are the accumulators, `fuel` counts the remaining iterations
(callers pass `size` with `i = 0`).  An index is skipped exactly when it
occurs in `ignore` (the first `numIgnoreIndices` entries of the C array);
otherwise `max_val < a[i].phaseAngle` updates both accumulators. -/
def maxLoop (a : List ℤ) (ignore : List ℕ) : ℕ → ℕ → ℤ → ℕ → ℤ × ℕ
  | 0, _, max_val, max_index => (max_val, max_index)
  | fuel + 1, i, max_val, max_index =>
    if i ∈ ignore then maxLoop a ignore fuel (i + 1) max_val max_index
    else if max_val < getn a i then maxLoop a ignore fuel (i + 1) (getn a i) i
    else maxLoop a ignore fuel (i + 1) max_val max_index

/-- C `maxrow`: scan the whole buffer (indices `[0, size)`), skipping the
exclusion list, for the maximal phase angle.  `max_val`/`max_index` are the
caller-initialised accumulators (the unused `col` parameter of the C
signature is dropped); `findPeakRec` initialises them to `0.0f` and `0`. -/
def maxrow (a : List ℤ) (size : ℕ) (ignore : List ℕ) (max_val : ℤ) (max_index : ℕ) : ℤ × ℕ :=
  maxLoop a ignore size 0 max_val max_index

/-- C `findPeakRec`: divide-and-conquer locator.  The scan `maxrow` always
covers the full buffer; the window `[l, r]` only steers the direction test
on the neighbours of `mid`.  Returns `(NO_PEAK, pIn)` for an empty window
(`l > r`), leaving the out-parameter `peakIndex = pIn` untouched, and
otherwise the scan result once `mid` hits a buffer end or neither neighbour
of `mid` beats the scan maximum.  `fuel` bounds the recursion depth (the
fuel-exhausted result is never reached when `fuel` exceeds the window
length, as the window shrinks strictly at each level). -/
def findPeakRec (a : List ℤ) (size : ℕ) (ignore : List ℕ) : ℕ → ℤ → ℤ → ℕ → ℤ × ℕ
  | 0, _, _, pIn => (NO_PEAK, pIn)
  | fuel + 1, l, r, pIn =>
    if r < l then (NO_PEAK, pIn)
    else
      let mid := (l + r) / 2
      let mr := maxrow a size ignore 0 0
      if mid = 0 ∨ mid = (size : ℤ) - 1 then mr
      else if mr.1 < getz a (mid - 1) then findPeakRec a size ignore fuel l (mid - 1) pIn
      else if mr.1 < getz a (mid + 1) then findPeakRec a size ignore fuel (mid + 1) r pIn
      else mr

/-- C `findProminence`'s first loop, `for (i = peakIndex - 1; i >= 0; i--)`:
the greatest index `i` at or below the start with `a[i] > peak_val`, or `0`
(the C loop leaves `leftBoundary = 0` both when it finds index `0` and when
it runs out). -/
def promLeftScan (a : List ℤ) (peak_val : ℤ) : ℕ → ℕ
  | 0 => 0
  | i + 1 => if peak_val < getn a (i + 1) then i + 1 else promLeftScan a peak_val i

/-- C `findProminence`'s second loop, `for (i = peakIndex + 1; i < size;
i++)`: the least such index with `a[i] > peak_val`, else `size - 1`.
Callers pass `fuel = size`, an upper bound on the trip count. -/
def promRightScan (a : List ℤ) (peak_val : ℤ) (size : ℕ) : ℕ → ℕ → ℕ
  | 0, _ => size - 1
  | fuel + 1, i =>
    if i < size then
      if peak_val < getn a i then i else promRightScan a peak_val size fuel (i + 1)
    else size - 1

/-- C `findProminence`'s third loop, `for (i = leftBoundary;
i <= rightBoundary; i++)`, folding the running minimum `mn` (initialised by
the caller to `a[rightBoundary]`).  Callers pass `fuel = rb + 1`, an upper
bound on the trip count from any start index. -/
def promMinScan (a : List ℤ) (rb : ℕ) : ℕ → ℕ → ℤ → ℤ
  | 0, _, mn => mn
  | fuel + 1, i, mn =>
    if i ≤ rb then
      if getn a i < mn then promMinScan a rb fuel (i + 1) (getn a i)
      else promMinScan a rb fuel (i + 1) mn
    else mn

/-- C `findProminence`: nearest strictly-higher sample (or buffer end) on
each side bounds the range whose minimum is the peak's base; prominence is
the peak value minus that minimum.  Note that `processPeak` calls this with
`size - 1`, not `size`. -/
def findProminence (a : List ℤ) (size : ℕ) (peakIndex : ℕ) : ℤ :=
  let peak_val := getn a peakIndex
  let leftBoundary :=
    match peakIndex with
    | 0 => 0
    | j + 1 => promLeftScan a peak_val j
  let rightBoundary := promRightScan a peak_val size size (peakIndex + 1)
  let minValue := promMinScan a rightBoundary (rightBoundary + 1) leftBoundary (getn a rightBoundary)
  peak_val - minValue

/-- C `calculateFWHM`'s left walk, `while (leftIndex > 0 &&
a[leftIndex].phaseAngle > halfProminenceHeight) leftIndex--`. -/
def fwhmLeftWalk (a : List ℤ) (half : ℤ) : ℕ → ℕ
  | 0 => 0
  | i + 1 => if half < getn a (i + 1) then fwhmLeftWalk a half i else i + 1

/-- C `calculateFWHM`'s right walk, `while (rightIndex < size - 1 &&
a[rightIndex].phaseAngle > halfProminenceHeight) rightIndex++`.  Callers
pass `fuel = size`, an upper bound on the trip count. -/
def fwhmRightWalk (a : List ℤ) (half : ℤ) (size : ℕ) : ℕ → ℕ → ℕ
  | 0, i => i
  | fuel + 1, i =>
    if i < size - 1 ∧ half < getn a i then fwhmRightWalk a half size fuel (i + 1) else i

/-- C `calculateFWHM`: whole-sample span between the walks' stopping
indices around the half-prominence height `contourLineHeight +
prominence / 2` (no sub-sample interpolation; `fabsf(rightIndex -
leftIndex)` becomes `Int.natAbs`). -/
def calculateFWHM (a : List ℤ) (size : ℕ) (peakIndex : ℕ) (prominence : ℤ) : ℕ :=
  let peakHeight := getn a peakIndex
  let contourLineHeight := peakHeight - prominence
  let halfProminenceHeight := contourLineHeight + prominence / 2
  let leftIndex := fwhmLeftWalk a halfProminenceHeight peakIndex
  let rightIndex := fwhmRightWalk a halfProminenceHeight size size peakIndex
  ((rightIndex : ℤ) - (leftIndex : ℤ)).natAbs

/-- C `isPeakClimbing`'s forward loop, `for (i = peakIndex; i < sizeB - 1;
i++)`, with the `failCount` accumulator and the early `return false` on the
second failure.  Callers pass `fuel = sizeB`, an upper bound on the trip
count. -/
def climbScan (b : List ℤ) (tol : ℤ) (sizeB : ℕ) : ℕ → ℕ → ℕ → Bool
  | 0, _, failCount => failCount < 2
  | fuel + 1, i, failCount =>
    if i < sizeB - 1 then
      if getn b (i + 1) - getn b i ≤ tol then
        if 2 ≤ failCount + 1 then false
        else climbScan b tol sizeB fuel (i + 1) (failCount + 1)
      else climbScan b tol sizeB fuel (i + 1) failCount
    else failCount < 2

/-- C `isPeakClimbing`: `false` outright when the peak sits at either buffer
end (`peakIndex <= 0 || peakIndex >= sizeB - 1`), else the forward
first-difference walk with at most one tolerated non-climbing step. -/
def isPeakClimbing (b : List ℤ) (sizeB : ℕ) (peakIndex : ℕ) (noiseTolerance : ℤ) : Bool :=
  if peakIndex = 0 ∨ sizeB - 1 ≤ peakIndex then false
  else climbScan b noiseTolerance sizeB sizeB peakIndex 0

/-- Per-trial verdict of `processPeak`'s retry loop (ghost observation:
the C code prints these conditions but stores them only in control flow). -/
inductive TrialOutcome where
  | noPeak
  | lowProminence
  | narrowWidth
  | accepted
deriving DecidableEq

/-- C `processPeak`'s `do { ... } while (retry < maxAttempts)` loop.
`rem` is the remaining attempt budget (`3` initially: the loop body runs
for `retry = 0, 1, 2`), `skipped` the exclusion set built so far, `pIn` and
`eIn` the current values of the out-parameters `*peakIndex` and
`*isEdgeCase`.  Returns the `(accepted, peakIndex, isEdgeCase)` triple
together with the ghost trial-outcome list and the final exclusion set.
The branches mirror the source: sentinel check, prominence floor (`break`
on failure), edge-case detection for candidates within `PEAK_THRESHOLD` of
the buffer end, width floor (accept), and otherwise retry after appending
the candidate to the exclusion set when fewer than 3 slots are used. -/
def processPeakTrace (a : List ℤ) (size : ℕ) :
    ℕ → List ℕ → ℕ → Bool → (Bool × ℕ × Bool) × List TrialOutcome × List ℕ
  | 0, skipped, pIn, eIn => ((false, pIn, eIn), [], skipped)
  | rem + 1, skipped, pIn, eIn =>
    let fp := findPeakRec a size skipped (size + 1) 0 ((size : ℤ) - 1) pIn
    if fp.1 = NO_PEAK then ((false, fp.2, eIn), [TrialOutcome.noPeak], skipped)
    else
      let prominence := findProminence a (size - 1) fp.2
      if PROMINENCE_MIN < prominence then
        let fwhm := calculateFWHM a size fp.2 prominence
        let isEdge :=
          if size - PEAK_THRESHOLD ≤ fp.2 then isPeakClimbing a size fp.2 NOISE_TOLERANCE
          else eIn
        if FWHM_MIN < fwhm then ((true, fp.2, isEdge), [TrialOutcome.accepted], skipped)
        else
          let skipped2 := if skipped.length < 3 then skipped ++ [fp.2] else skipped
          let rest := processPeakTrace a size rem skipped2 fp.2 isEdge
          (rest.1, TrialOutcome.narrowWidth :: rest.2.1, rest.2.2)
      else ((false, fp.2, eIn), [TrialOutcome.lowProminence], skipped)

/-- C `processPeak`: the observable outputs `(accepted, *peakIndex,
*isEdgeCase)` of the retry loop, started with an empty exclusion set, a
budget of 3 attempts and out-parameters `0` / `false` (their values in the
caller `mes_find_peak`). -/
def processPeak (a : List ℤ) (size : ℕ) : Bool × ℕ × Bool :=
  (processPeakTrace a size 3 [] 0 false).1

/-- C `mes_find_peak`: runs `processPeak` and surfaces only the acceptance
flag. -/
def mes_find_peak (rawData : List ℤ) (size : ℕ) : Bool :=
  (processPeak rawData size).1

/-- The 301-sample reference curve hard-coded in the repository's `main`
(`float dataset[301]`), in micro-units (each entry is the source decimal
times `10^6`, exactly). -/
def refCurve : List ℤ := [10361000, 10329520, 10356401, 10325025, 10469888, 10445896, 10422787, 10467480, 10344401, 10459909, 10378614, 10418076, 10424760, 10473890, 10432741, 10436613, 10444571, 10429080, 10463049, 10425678, 10437474, 10479097, 10501722, 10531240, 10492681, 10517651, 10504417, 10544653, 10544653, 10545215, 10603968, 10506781, 10507369, 10609545, 10597960, 10539934, 10572769, 10581369, 10691141, 10620659, 10639743, 10674317, 10661292, 10736961, 10565084, 10688236, 10709663, 10768684, 10791526, 10729278, 10743296, 10782402, 10752879, 10909691, 10866303, 10836424, 10874863, 10954317, 10922943, 10924746, 10982296, 10980767, 10960667, 11041705, 10980650, 10989566, 11122129, 11000278, 11132257, 11255452, 11177774, 11192039, 11191874, 11313030, 11316112, 11297583, 11337660, 11499168, 11382261, 11420565, 11573527, 11490598, 11658082, 11645509, 11708488, 11795426, 11751255, 11750044, 11855704, 11914387, 12009725, 11969546, 12113441, 12218554, 12348103, 12205872, 12435554, 12488775, 12667537, 12676172, 12926952, 12863553, 12989057, 13248148, 13190160, 13439136, 13573619, 13683957, 13827342, 13875702, 14046788, 14509664, 14635375, 14892009, 14904869, 15331629, 15755693, 15847921, 16199364, 16443979, 16875294, 17291578, 17530399, 18114887, 18062302, 18794970, 19479204, 19800901, 21082626, 20951014, 22154087, 22610720, 23203785, 24563568, 25344297, 26618078, 27102108, 28593575, 29146513, 30456078, 31622009, 32400932, 34245522, 35443687, 36797287, 37996586, 38626411, 39856213, 40659065, 41525280, 41962757, 42145386, 41981716, 41510342, 41174747, 40244114, 38980572, 37411938, 36015099, 34285168, 32450775, 30479216, 28919357, 28111219, 27203331, 25809673, 25276243, 23578642, 22641386, 21600714, 21439640, 20695690, 19684826, 19482126, 18990290, 17988312, 18252808, 17465487, 16942823, 16450624, 16637707, 16066063, 15757387, 15170953, 15165143, 14770429, 14727147, 14488015, 14067205, 13987227, 13731712, 13818885, 13447730, 13469353, 13389613, 13200713, 13097751, 12892175, 13032427, 12747318, 12803812, 12540964, 12492415, 12361678, 12370881, 12163138, 12261773, 11987444, 11952088, 11912817, 11833737, 12018749, 11742359, 11825325, 11705390, 11672668, 11646121, 11717649, 11523814, 11463550, 11526981, 11448123, 11499317, 11361500, 11369127, 11296580, 11309932, 11357458, 11258648, 11182965, 11226593, 11198554, 11132441, 11075950, 11085775, 11048738, 11086349, 11013202, 11062451, 10988196, 10926581, 10962508, 10983298, 11011072, 10902027, 10971194, 10919538, 10854755, 10859086, 10880175, 10848403, 10826693, 10832817, 10848177, 10857426, 10804535, 10758336, 10759258, 10763223, 10804464, 10732544, 10740483, 10750152, 10771185, 10656355, 10746325, 10676956, 10695798, 10643116, 10624805, 10673359, 10670972, 10653358, 10640178, 10643605, 10642442, 10664634, 10632175, 10571341, 10555463, 10619086, 10615108, 10624764, 10584524, 10589610, 10613992, 10597569, 10573765, 10560243, 10568216, 10564842, 10534982, 10538974, 10549685, 10555965, 10546945, 10549246, 10560552, 10511511, 10529139, 10482478]

/-- Witness buffer for the attempt-budget claim: three isolated one-sample
spikes (100.0, 90.0, 80.0 over a 1.0 baseline, micro-units), each prominent
but far too narrow, so every trial is rejected for narrow width. -/
def spiky : List ℤ :=
  [1000000, 1000000, 1000000, 1000000, 1000000, 1000000, 1000000, 1000000, 1000000, 1000000,
   100000000, 1000000, 1000000, 1000000, 1000000, 1000000, 1000000, 1000000, 1000000, 1000000,
   90000000, 1000000, 1000000, 1000000, 1000000, 1000000, 1000000, 1000000, 1000000, 1000000,
   80000000, 1000000, 1000000, 1000000, 1000000, 1000000, 1000000, 1000000, 1000000, 1000000,
   1000000]

/-- The scan accumulator never decreases. -/
theorem maxLoop_le_fst (a : List ℤ) (ig : List ℕ) :
    ∀ fuel i max_val max_index, max_val ≤ (maxLoop a ig fuel i max_val max_index).1 := by
  intro fuel
  induction fuel with
  | zero => intro i mv mi; simp [maxLoop]
  | succ f ih =>
    intro i mv mi
    by_cases hig : i ∈ ig
    · simpa only [maxLoop, if_pos hig] using ih (i + 1) mv mi
    · by_cases hlt : mv < getn a i
      · simp only [maxLoop, if_neg hig, if_pos hlt]
        exact le_of_lt (lt_of_lt_of_le hlt (ih (i + 1) (getn a i) i))
      · simpa only [maxLoop, if_neg hig, if_neg hlt] using ih (i + 1) mv mi

/-- Every non-excluded index covered by the scan is dominated by the scan
maximum. -/
theorem maxLoop_dominates (a : List ℤ) (ig : List ℕ) :
    ∀ fuel i max_val max_index j, i ≤ j → j < i + fuel → j ∉ ig →
      getn a j ≤ (maxLoop a ig fuel i max_val max_index).1 := by
  intro fuel
  induction fuel with
  | zero => intro i mv mi j h1 h2 _; omega
  | succ f ih =>
    intro i mv mi j h1 h2 hj
    by_cases hig : i ∈ ig
    · have hne : i ≠ j := fun h => hj (h ▸ hig)
      simpa only [maxLoop, if_pos hig] using ih (i + 1) mv mi j (by omega) (by omega) hj
    · by_cases hlt : mv < getn a i
      · simp only [maxLoop, if_neg hig, if_pos hlt]
        rcases Nat.eq_or_lt_of_le h1 with rfl | hgt
        · exact maxLoop_le_fst a ig f (i + 1) (getn a i) i
        · exact ih (i + 1) (getn a i) i j (by omega) (by omega) hj
      · simp only [maxLoop, if_neg hig, if_neg hlt]
        rcases Nat.eq_or_lt_of_le h1 with rfl | hgt
        · exact le_trans (not_lt.mp hlt) (maxLoop_le_fst a ig f (i + 1) mv mi)
        · exact ih (i + 1) mv mi j (by omega) (by omega) hj

/-- The scan either returns its initial accumulators untouched or a
non-excluded in-range index carrying its own phase angle. -/
theorem maxLoop_cases (a : List ℤ) (ig : List ℕ) :
    ∀ fuel i max_val max_index,
      maxLoop a ig fuel i max_val max_index = (max_val, max_index) ∨
      ((maxLoop a ig fuel i max_val max_index).2 ∉ ig ∧
        (maxLoop a ig fuel i max_val max_index).2 < i + fuel ∧
        getn a (maxLoop a ig fuel i max_val max_index).2
          = (maxLoop a ig fuel i max_val max_index).1) := by
  intro fuel
  induction fuel with
  | zero => intro i mv mi; left; rfl
  | succ f ih =>
    intro i mv mi
    by_cases hig : i ∈ ig
    · simp only [maxLoop, if_pos hig]
      rcases ih (i + 1) mv mi with h | h
      · exact Or.inl h
      · exact Or.inr ⟨h.1, by omega, h.2.2⟩
    · by_cases hlt : mv < getn a i
      · simp only [maxLoop, if_neg hig, if_pos hlt]
        rcases ih (i + 1) (getn a i) i with h | h
        · right
          rw [h]
          exact ⟨hig, by omega, rfl⟩
        · exact Or.inr ⟨h.1, by omega, h.2.2⟩
      · simp only [maxLoop, if_neg hig, if_neg hlt]
        rcases ih (i + 1) mv mi with h | h
        · exact Or.inl h
        · exact Or.inr ⟨h.1, by omega, h.2.2⟩

/-- A scan over fully excluded indices returns its initial accumulators. -/
theorem maxLoop_all_excluded (a : List ℤ) (ig : List ℕ) :
    ∀ fuel i max_val max_index, (∀ k, i ≤ k → k < i + fuel → k ∈ ig) →
      maxLoop a ig fuel i max_val max_index = (max_val, max_index) := by
  intro fuel
  induction fuel with
  | zero => intro i mv mi _; rfl
  | succ f ih =>
    intro i mv mi hall
    have hig : i ∈ ig := hall i le_rfl (by omega)
    simp only [maxLoop, if_pos hig]
    exact ih (i + 1) mv mi (fun k h1 h2 => hall k (by omega) (by omega))

/-- Every result of `findPeakRec` is either the untouched no-peak pair or
the full-buffer scan's result. -/
theorem findPeakRec_out (a : List ℤ) (size : ℕ) (ig : List ℕ) :
    ∀ fuel l r pIn,
      findPeakRec a size ig fuel l r pIn = (NO_PEAK, pIn) ∨
      findPeakRec a size ig fuel l r pIn = maxrow a size ig 0 0 := by
  intro fuel
  induction fuel with
  | zero => intro l r pIn; left; rfl
  | succ f ih =>
    intro l r pIn
    simp only [findPeakRec]
    split_ifs with h1 h2 h3 h4
    · left; rfl
    · right; rfl
    · exact ih l ((l + r) / 2 - 1) pIn
    · exact ih ((l + r) / 2 + 1) r pIn
    · right; rfl

/-- C2 (corrected): once an index is in the exclusion set, `findPeakRec`
never reports it as the peak — provided some non-excluded in-range sample is
strictly positive.  (The original precondition `phaseAngle ≥ 0` is not
enough: see the counterexample, where an all-zero buffer returns the
excluded index 0, the scan's initial accumulator.) -/
theorem claim_C2_amended (a : List ℤ) (size : ℕ) (ignore : List ℕ) (fuel : ℕ)
    (l r : ℤ) (pIn i : ℕ)
    (hpos : ∃ j, j < size ∧ j ∉ ignore ∧ 0 < getn a j)
    (hi : i ∈ ignore)
    (hne : (findPeakRec a size ignore fuel l r pIn).1 ≠ NO_PEAK) :
    (findPeakRec a size ignore fuel l r pIn).2 ≠ i := by
  rcases findPeakRec_out a size ignore fuel l r pIn with h | h
  · rw [h] at hne
    exact absurd rfl hne
  · rw [h, maxrow]
    obtain ⟨j, hj, hjig, hjpos⟩ := hpos
    rcases maxLoop_cases a ignore size 0 0 0 with hc | hc
    · exfalso
      have hd := maxLoop_dominates a ignore size 0 0 0 j (by omega) (by omega) hjig
      rw [hc] at hd
      exact absurd (lt_of_lt_of_le hjpos hd) (by norm_num)
    · intro heq
      rw [heq] at hc
      exact hc.1 hi

/-- C2, counterexample to the claim as stated: the all-zero two-sample
buffer satisfies the claimed precondition `phaseAngle ≥ 0` and the
exclusion set `[0]` has free slots, yet the locator reports the excluded
index 0 as the peak (with value 0, not the no-peak sentinel): `maxrow`'s
accumulators start at `(0, 0)` and are never updated. -/
theorem claim_C2_counterexample :
    (0 : ℤ) ≤ getn [0, 0] 0 ∧ (0 : ℤ) ≤ getn [0, 0] 1 ∧
    (findPeakRec [0, 0] 2 [0] 3 0 1 5).1 ≠ NO_PEAK ∧
    (findPeakRec [0, 0] 2 [0] 3 0 1 5).2 = 0 := by decide

/-- C2, witness: a concrete run of the amended theorem. -/
theorem claim_C2_witness : (findPeakRec [0, 2] 2 [0] 3 0 1 0).2 ≠ 0 :=
  claim_C2_amended [0, 2] 2 [0] 3 0 1 0 0 ⟨1, by decide⟩ (by decide) (by decide)

/-- On a fully excluded buffer with positive samples, the locator walks its
window down to `mid = 0` and returns the untouched scan accumulators
`(0, 0)` — not the no-peak sentinel. -/
theorem findPeakRec_all_excluded (a : List ℤ) (size : ℕ) (ignore : List ℕ)
    (hex : ∀ i, i < size → i ∈ ignore) (hpos : ∀ i, i < size → 0 < getn a i) :
    ∀ fuel (r : ℤ) (pIn : ℕ), 0 ≤ r → r < (size : ℤ) → r.toNat < fuel →
      findPeakRec a size ignore fuel 0 r pIn = (0, 0) := by
  intro fuel
  induction fuel with
  | zero => intro r pIn h1 h2 h3; omega
  | succ f ih =>
    intro r pIn h0 hr hfuel
    have hguard : ¬ (r < 0) := by omega
    have hmr : maxrow a size ignore 0 0 = (0, 0) := by
      apply maxLoop_all_excluded
      intro k hk1 hk2
      exact hex k (by omega)
    simp only [findPeakRec, if_neg hguard]
    by_cases hbase : (0 + r) / 2 = 0 ∨ (0 + r) / 2 = (size : ℤ) - 1
    · rw [if_pos hbase, hmr]
    · obtain ⟨hb1, hb2⟩ := not_or.mp hbase
      have hmidpos : 0 < (0 + r) / 2 := by omega
      have hmidr : (0 + r) / 2 ≤ r := by omega
      have hidx : ((0 + r) / 2 - 1).toNat < size := by omega
      have hposi : (0 : ℤ) < getz a ((0 + r) / 2 - 1) := by
        rw [getz, if_pos (by omega : (0 : ℤ) ≤ (0 + r) / 2 - 1)]
        exact hpos _ hidx
      rw [if_neg hbase,
        if_pos (show (maxrow a size ignore 0 0).1 < getz a ((0 + r) / 2 - 1) by
          rw [hmr]; exact hposi)]
      exact ih ((0 + r) / 2 - 1) pIn (by omega) (by omega) (by omega)

/-- C3 (corrected): the locator returns the no-peak sentinel whenever its
window is empty (`l > r`).  But a fully excluded buffer does **not** yield
the no-peak result: when every index is excluded (and samples are positive)
the top-level call returns value 0 at index 0 — the scan's initial
accumulators — which `processPeak` then treats as a found candidate. -/
theorem claim_C3_amended (a : List ℤ) (size : ℕ) (ignore : List ℕ) (fuel : ℕ)
    (l r : ℤ) (pIn : ℕ) :
    (1 ≤ fuel → r < l → findPeakRec a size ignore fuel l r pIn = (NO_PEAK, pIn)) ∧
    ((∀ i, i < size → i ∈ ignore) → (∀ i, i < size → 0 < getn a i) →
      0 < size → size ≤ fuel →
      findPeakRec a size ignore fuel 0 ((size : ℤ) - 1) pIn = (0, 0)) := by
  constructor
  · intro h1 h2
    obtain ⟨f, rfl⟩ : ∃ f, fuel = f + 1 := ⟨fuel - 1, by omega⟩
    simp only [findPeakRec, if_pos h2]
  · intro hex hpos hsz hfuel
    exact findPeakRec_all_excluded a size ignore hex hpos fuel ((size : ℤ) - 1) pIn
      (by omega) (by omega) (by omega)

/-- C3, counterexample to the claim as stated: buffer `[5]` with every index
excluded and the (nonempty) top-level window `[0, 0]` does not produce the
no-peak result; it returns value 0 at index 0. -/
theorem claim_C3_counterexample :
    (∀ i, i < 1 → i ∈ [0]) ∧
    (findPeakRec [(5 : ℤ)] 1 [0] 2 0 0 7).1 ≠ NO_PEAK ∧
    findPeakRec [(5 : ℤ)] 1 [0] 2 0 0 7 = (0, 0) := by decide

/-- C3, witness: both branches of the amended theorem at concrete inputs. -/
theorem claim_C3_witness :
    findPeakRec [(5 : ℤ)] 1 [0] 1 0 (-1) 7 = (NO_PEAK, 7) ∧
    findPeakRec [(2 : ℤ), 3, 4] 3 [0, 1, 2] 4 0 2 9 = (0, 0) :=
  ⟨(claim_C3_amended [(5 : ℤ)] 1 [0] 1 0 (-1) 7).1 (by decide) (by decide),
   (claim_C3_amended [(2 : ℤ), 3, 4] 3 [0, 1, 2] 4 0 2 9).2
     (by decide) (by decide) (by decide) (by decide)⟩

/-- With an empty exclusion set the scan maximum dominates every sample, so
both neighbour tests fail and `findPeakRec` accepts the scan result at the
first level, for any window `0 ≤ l ≤ r < size`. -/
theorem findPeakRec_no_exclusions (a : List ℤ) (size : ℕ) (fuel : ℕ) (l r : ℤ) (pIn : ℕ)
    (hl : 0 ≤ l) (hlr : l ≤ r) (hr : r < (size : ℤ)) (hfuel : 1 ≤ fuel) :
    findPeakRec a size [] fuel l r pIn = maxrow a size [] 0 0 := by
  obtain ⟨f, rfl⟩ : ∃ f, fuel = f + 1 := ⟨fuel - 1, by omega⟩
  have hguard : ¬ (r < l) := by omega
  simp only [findPeakRec, if_neg hguard]
  by_cases hbase : (l + r) / 2 = 0 ∨ (l + r) / 2 = (size : ℤ) - 1
  · rw [if_pos hbase]
  · obtain ⟨hb1, hb2⟩ := not_or.mp hbase
    have hmid0 : 0 ≤ (l + r) / 2 := by omega
    have h1 : ¬ ((maxrow a size [] 0 0).1 < getz a ((l + r) / 2 - 1)) := by
      apply not_lt.mpr
      rw [getz, if_pos (by omega : (0 : ℤ) ≤ (l + r) / 2 - 1)]
      exact maxLoop_dominates a [] size 0 0 0 _ (by omega) (by omega) (List.not_mem_nil _)
    have h2 : ¬ ((maxrow a size [] 0 0).1 < getz a ((l + r) / 2 + 1)) := by
      apply not_lt.mpr
      rw [getz, if_pos (by omega : (0 : ℤ) ≤ (l + r) / 2 + 1)]
      exact maxLoop_dominates a [] size 0 0 0 _ (by omega) (by omega) (List.not_mem_nil _)
    rw [if_neg hbase, if_neg h1, if_neg h2]

/-- With nonnegative samples the exclusion-free scan's reported index
carries the reported value and lies in range (also in the no-update case,
where all samples must be 0). -/
theorem maxrow_spec_nonneg (a : List ℤ) (size : ℕ)
    (hnn : ∀ i, i < size → 0 ≤ getn a i) (hsz : 0 < size) :
    getn a (maxLoop a [] size 0 0 0).2 = (maxLoop a [] size 0 0 0).1 ∧
    (maxLoop a [] size 0 0 0).2 < size := by
  rcases maxLoop_cases a [] size 0 0 0 with hc | hc
  · rw [hc]
    have hd := maxLoop_dominates a [] size 0 0 0 0 (by omega) (by omega) (List.not_mem_nil _)
    rw [hc] at hd
    exact ⟨le_antisymm hd (hnn 0 hsz), hsz⟩
  · exact ⟨hc.2.2, by simpa using hc.2.1⟩

/-- C4 (corrected): with an **empty** exclusion set and nonnegative samples
the locator's accepted index is a global maximum of the buffer, hence a
true local maximum (neither neighbour is higher).  (With a nonempty
exclusion set the claim fails — see the counterexample — because the
neighbour test probes the neighbours of `mid`, not of the accepted index,
and the `mid = 0` / `mid = size - 1` base cases skip the test entirely, so
an excluded, strictly higher neighbour can sit next to the accepted
index.) -/
theorem claim_C4_amended (a : List ℤ) (size fuel : ℕ) (l r : ℤ) (pIn m : ℕ) (v : ℤ)
    (hnn : ∀ i, i < size → 0 ≤ getn a i)
    (hl : 0 ≤ l) (hlr : l ≤ r) (hr : r < (size : ℤ)) (hfuel : 1 ≤ fuel)
    (heq : findPeakRec a size [] fuel l r pIn = (v, m)) :
    (∀ j, j < size → getn a j ≤ v) ∧ getn a m = v ∧ m < size ∧
    (1 ≤ m → getn a (m - 1) ≤ getn a m) ∧
    (m + 1 < size → getn a (m + 1) ≤ getn a m) := by
  have h0 := findPeakRec_no_exclusions a size fuel l r pIn hl hlr hr hfuel
  rw [heq, maxrow] at h0
  have hsz : 0 < size := by omega
  have hdom : ∀ j, j < size → getn a j ≤ v := by
    intro j hj
    have hd := maxLoop_dominates a [] size 0 0 0 j (by omega) (by omega) (List.not_mem_nil _)
    rw [← h0] at hd
    exact hd
  have hspec := maxrow_spec_nonneg a size hnn hsz
  rw [← h0] at hspec
  refine ⟨hdom, hspec.1, hspec.2, ?_, ?_⟩
  · intro h1
    rw [hspec.1]
    exact hdom (m - 1) (by omega)
  · intro h2
    rw [hspec.1]
    exact hdom (m + 1) h2

/-- C4, counterexample to the claim as stated: buffer `[1, 9, 8, 1, 1]`
(all samples nonnegative) with index 1 excluded makes the locator accept
index 2, whose left neighbour (the excluded sample 9) is strictly higher —
not a local maximum. -/
theorem claim_C4_counterexample :
    (∀ i, i < 5 → 0 ≤ getn [1, 9, 8, 1, 1] i) ∧
    (findPeakRec [(1 : ℤ), 9, 8, 1, 1] 5 [1] 6 0 4 0).1 ≠ NO_PEAK ∧
    (findPeakRec [(1 : ℤ), 9, 8, 1, 1] 5 [1] 6 0 4 0).2 = 2 ∧
    getn [(1 : ℤ), 9, 8, 1, 1] 2 < getn [(1 : ℤ), 9, 8, 1, 1] (2 - 1) := by decide

/-- C4, witness: a concrete run of the amended theorem. -/
theorem claim_C4_witness :
    getn [(0 : ℤ), 3, 1] 1 = 3 ∧ (1 : ℕ) < 3 ∧
    getn [(0 : ℤ), 3, 1] 0 ≤ getn [(0 : ℤ), 3, 1] 1 := by
  have h := claim_C4_amended [(0 : ℤ), 3, 1] 3 4 0 2 0 1 3
    (by decide) (by decide) (by decide) (by decide) (by decide) (by decide)
  exact ⟨h.2.1, h.2.2.1, h.2.2.2.1 (by decide)⟩

/-- If every remaining first difference exceeds the tolerance, the climb
scan never increments its fail counter. -/
theorem climbScan_all_climb (b : List ℤ) (tol : ℤ) (sizeB : ℕ) :
    ∀ fuel i fc, (∀ j, j < sizeB - 1 → i ≤ j → tol < getn b (j + 1) - getn b j) →
      fc < 2 → climbScan b tol sizeB fuel i fc = true := by
  intro fuel
  induction fuel with
  | zero =>
    intro i fc _ h2
    simp only [climbScan, decide_eq_true_eq]
    exact h2
  | succ f ih =>
    intro i fc hall h2
    by_cases hi : i < sizeB - 1
    · have hno : ¬ (getn b (i + 1) - getn b i ≤ tol) := not_le.mpr (hall i hi le_rfl)
      simp only [climbScan, if_pos hi, if_neg hno]
      exact ih (i + 1) fc (fun j hj hij => hall j hj (by omega)) h2
    · simp only [climbScan, if_neg hi, decide_eq_true_eq]
      exact h2

/-- If every remaining first difference is within the tolerance and at
least two fail increments are still to come, the climb scan reports
`false`. -/
theorem climbScan_all_flat (b : List ℤ) (tol : ℤ) (sizeB : ℕ) :
    ∀ fuel i fc, (∀ j, j < sizeB - 1 → i ≤ j → getn b (j + 1) - getn b j ≤ tol) →
      2 ≤ fc + (sizeB - 1 - i) → sizeB - 1 - i ≤ fuel →
      climbScan b tol sizeB fuel i fc = false := by
  intro fuel
  induction fuel with
  | zero =>
    intro i fc h1 h2 h3
    simp only [climbScan, decide_eq_false_iff_not, not_lt]
    omega
  | succ f ih =>
    intro i fc h1 h2 h3
    by_cases hi : i < sizeB - 1
    · have hd := h1 i hi le_rfl
      simp only [climbScan, if_pos hi, if_pos hd]
      by_cases hfc : 2 ≤ fc + 1
      · rw [if_pos hfc]
      · rw [if_neg hfc]
        exact ih (i + 1) (fc + 1) (fun j hj hij => h1 j hj (by omega)) (by omega) (by omega)
    · simp only [climbScan, if_neg hi, decide_eq_false_iff_not, not_lt]
      omega

/-- C5 (corrected): the tail-climb detector returns `false` outright when
the peak sits at either buffer end; returns `true` for a strictly climbing
tail (every first difference above the noise tolerance); and returns
`false` for a flat-or-decreasing tail **provided the forward walk has at
least two steps** (`peakIndex + 2 ≤ sizeB - 1`).  When the peak is the
penultimate sample the walk has a single step, the fail counter can only
reach 1, and a flat tail is reported as `true` — see the counterexample. -/
theorem claim_C5_amended (b : List ℤ) (sizeB pk : ℕ) :
    ((pk = 0 ∨ sizeB - 1 ≤ pk) → isPeakClimbing b sizeB pk NOISE_TOLERANCE = false) ∧
    (0 < pk → pk < sizeB - 1 →
      (∀ i, i < sizeB - 1 → pk ≤ i → NOISE_TOLERANCE < getn b (i + 1) - getn b i) →
      isPeakClimbing b sizeB pk NOISE_TOLERANCE = true) ∧
    (0 < pk → pk + 2 ≤ sizeB - 1 →
      (∀ i, i < sizeB - 1 → pk ≤ i → getn b (i + 1) - getn b i ≤ NOISE_TOLERANCE) →
      isPeakClimbing b sizeB pk NOISE_TOLERANCE = false) := by
  refine ⟨fun h => ?_, fun h1 h2 hall => ?_, fun h1 h2 hall => ?_⟩
  · rw [isPeakClimbing, if_pos h]
  · rw [isPeakClimbing, if_neg (by omega : ¬ (pk = 0 ∨ sizeB - 1 ≤ pk))]
    exact climbScan_all_climb b NOISE_TOLERANCE sizeB sizeB pk 0 hall (by omega)
  · rw [isPeakClimbing, if_neg (by omega : ¬ (pk = 0 ∨ sizeB - 1 ≤ pk))]
    exact climbScan_all_flat b NOISE_TOLERANCE sizeB sizeB pk 0 hall (by omega) (by omega)

/-- C5, counterexample to the claim as stated: interior peak `1` of the
3-sample buffer `[0, 5.0, 5.0]` has a flat tail (its only first difference
is `0 ≤ 0.9`), yet the detector returns `true`, not `false`: one flat step
increments the fail counter only to 1. -/
theorem claim_C5_counterexample :
    0 < 1 ∧ 1 < 3 - 1 ∧
    (∀ i, i < 3 - 1 → 1 ≤ i →
      getn [(0 : ℤ), 5000000, 5000000] (i + 1) - getn [(0 : ℤ), 5000000, 5000000] i
        ≤ NOISE_TOLERANCE) ∧
    isPeakClimbing [(0 : ℤ), 5000000, 5000000] 3 1 NOISE_TOLERANCE = true := by decide

/-- C5, witness: all three branches of the amended theorem at concrete
inputs (boundary peak; strictly climbing tail; flat tail of two steps). -/
theorem claim_C5_witness :
    isPeakClimbing [(1 : ℤ), 2] 2 0 NOISE_TOLERANCE = false ∧
    isPeakClimbing [(0 : ℤ), 0, 2000000, 4000000] 4 1 NOISE_TOLERANCE = true ∧
    isPeakClimbing [(0 : ℤ), 9000000, 9000000, 9000000] 4 1 NOISE_TOLERANCE = false :=
  ⟨(claim_C5_amended [(1 : ℤ), 2] 2 0).1 (by decide),
   (claim_C5_amended [(0 : ℤ), 0, 2000000, 4000000] 4 1).2.1
     (by decide) (by decide) (by decide),
   (claim_C5_amended [(0 : ℤ), 9000000, 9000000, 9000000] 4 1).2.2
     (by decide) (by decide) (by decide)⟩

/-- C6 (confirmed): when a trial's candidate is found (no sentinel) but its
prominence is at or below the 18.0 floor, `processPeak`'s loop `break`s at
once: the call returns `accepted = false` with the candidate as
`peakIndex` and `isEdgeCase` untouched, the trial list stops at this single
low-prominence outcome (no further locator trials), and the exclusion set
is returned unchanged (the candidate is not appended). -/
theorem claim_C6 (a : List ℤ) (size : ℕ) (skipped : List ℕ) (pIn : ℕ) (eIn : Bool)
    (rem : ℕ) (pv : ℤ) (pIdx : ℕ)
    (hrem : 1 ≤ rem)
    (heq : findPeakRec a size skipped (size + 1) 0 ((size : ℤ) - 1) pIn = (pv, pIdx))
    (hpv : pv ≠ NO_PEAK)
    (hprom : findProminence a (size - 1) pIdx ≤ PROMINENCE_MIN) :
    processPeakTrace a size rem skipped pIn eIn
      = ((false, pIdx, eIn), [TrialOutcome.lowProminence], skipped) := by
  obtain ⟨k, rfl⟩ : ∃ k, rem = k + 1 := ⟨rem - 1, by omega⟩
  simp only [processPeakTrace, heq]
  rw [if_neg (show ¬ ((pv, pIdx).1 = NO_PEAK) from hpv),
    if_neg (not_lt.mpr hprom)]

/-- C6, witness: on the flat buffer `[5, 5, 5, 5, 5]` the first trial's
candidate is `(5, 0)` with prominence 0, so the call rejects immediately. -/
theorem claim_C6_witness :
    processPeakTrace [(5 : ℤ), 5, 5, 5, 5] 5 3 [] 0 false
      = ((false, 0, false), [TrialOutcome.lowProminence], []) := by
  rw [claim_C6 [(5 : ℤ), 5, 5, 5, 5] 5 [] 0 false 3 5 0
    (by omega) (by decide) (by decide) (by decide)]

/-- The retry loop performs at most `rem` trials. -/
theorem trace_outcomes_len (a : List ℤ) (size : ℕ) :
    ∀ rem skipped pIn eIn,
      (processPeakTrace a size rem skipped pIn eIn).2.1.length ≤ rem := by
  intro rem
  induction rem with
  | zero => intro s p e; simp [processPeakTrace]
  | succ k ih =>
    intro s p e
    simp only [processPeakTrace]
    split_ifs
    all_goals simp only [List.length_cons, List.length_nil]
    all_goals try omega
    all_goals exact Nat.succ_le_succ (ih _ _ _)

/-- The exclusion set never grows beyond its 3 slots (appends past capacity
are dropped). -/
theorem trace_skipped_len (a : List ℤ) (size : ℕ) :
    ∀ rem skipped pIn eIn,
      (processPeakTrace a size rem skipped pIn eIn).2.2.length ≤ max skipped.length 3 := by
  intro rem
  induction rem with
  | zero => intro s p e; simp [processPeakTrace]
  | succ k ih =>
    intro s p e
    simp only [processPeakTrace]
    split_ifs
    all_goals try exact le_max_left _ _
    all_goals first
      | exact ih _ _ _
      | exact le_trans (ih _ _ _)
          (by simp only [List.length_append, List.length_cons, List.length_nil]; omega)

/-- If every trial of the loop is rejected for narrow width, the loop runs
its whole budget and ends rejecting. -/
theorem trace_all_narrow (a : List ℤ) (size : ℕ) :
    ∀ rem skipped pIn eIn,
      (∀ o ∈ (processPeakTrace a size rem skipped pIn eIn).2.1,
        o = TrialOutcome.narrowWidth) →
      (processPeakTrace a size rem skipped pIn eIn).1.1 = false ∧
      (processPeakTrace a size rem skipped pIn eIn).2.1.length = rem := by
  intro rem
  induction rem with
  | zero => intro s p e _; exact ⟨rfl, rfl⟩
  | succ k ih =>
    intro s p e hall
    simp only [processPeakTrace] at hall ⊢
    split_ifs at hall ⊢
    all_goals try exact absurd (hall _ (List.mem_singleton_self _)) (by decide)
    all_goals
      exact ⟨(ih _ _ _ (fun o ho => hall o (List.mem_cons_of_mem _ ho))).1,
        by simp [List.length_cons,
          (ih _ _ _ (fun o ho => hall o (List.mem_cons_of_mem _ ho))).2]⟩

/-- C7 (confirmed): per call, `processPeak` runs at most 3 locator trials
and records at most 3 rejected indices; and if every trial is rejected for
narrow width the attempt budget is exhausted (exactly 3 trials) and the
call returns `accepted = false`. -/
theorem claim_C7 (a : List ℤ) (size : ℕ) :
    (processPeakTrace a size 3 [] 0 false).2.1.length ≤ 3 ∧
    (processPeakTrace a size 3 [] 0 false).2.2.length ≤ 3 ∧
    ((∀ o ∈ (processPeakTrace a size 3 [] 0 false).2.1, o = TrialOutcome.narrowWidth) →
      (processPeak a size).1 = false ∧
      (processPeakTrace a size 3 [] 0 false).2.1.length = 3) := by
  refine ⟨trace_outcomes_len a size 3 [] 0 false, ?_, fun hall => ?_⟩
  · simpa using trace_skipped_len a size 3 [] 0 false
  · exact trace_all_narrow a size 3 [] 0 false hall

/-- C7, witness: on the three-spike buffer every trial has high prominence
but width 2, so all three trials are width-rejected and the call fails with
the budget spent. -/
theorem claim_C7_witness :
    (processPeak spiky 41).1 = false ∧
    (processPeakTrace spiky 41 3 [] 0 false).2.1.length = 3 :=
  (claim_C7 spiky 41).2.2 (by decide)

/-- The left half-height walk never moves right of its start. -/
theorem fwhmLeftWalk_le (a : List ℤ) (h : ℤ) : ∀ pk, fwhmLeftWalk a h pk ≤ pk := by
  intro pk
  induction pk with
  | zero => simp [fwhmLeftWalk]
  | succ j ih =>
    by_cases hc : h < getn a (j + 1)
    · simp only [fwhmLeftWalk, if_pos hc]
      omega
    · simp only [fwhmLeftWalk, if_neg hc]
      omega

/-- The left walk stops at index 0 or at a sample at or below the half
height. -/
theorem fwhmLeftWalk_exit (a : List ℤ) (h : ℤ) :
    ∀ pk, fwhmLeftWalk a h pk = 0 ∨ getn a (fwhmLeftWalk a h pk) ≤ h := by
  intro pk
  induction pk with
  | zero => left; rfl
  | succ j ih =>
    by_cases hc : h < getn a (j + 1)
    · simpa only [fwhmLeftWalk, if_pos hc] using ih
    · right
      simpa only [fwhmLeftWalk, if_neg hc] using not_lt.mp hc

/-- Between the left walk's stop and its start, all samples are above the
half height. -/
theorem fwhmLeftWalk_interior (a : List ℤ) (h : ℤ) :
    ∀ pk j, fwhmLeftWalk a h pk < j → j ≤ pk → h < getn a j := by
  intro pk
  induction pk with
  | zero => intro j h1 h2; omega
  | succ k ih =>
    intro j h1 h2
    by_cases hc : h < getn a (k + 1)
    · rw [fwhmLeftWalk, if_pos hc] at h1
      rcases Nat.eq_or_lt_of_le h2 with rfl | hlt
      · exact hc
      · exact ih j h1 (by omega)
    · rw [fwhmLeftWalk, if_neg hc] at h1
      omega

/-- The right half-height walk never moves left of its start. -/
theorem fwhmRightWalk_ge (a : List ℤ) (h : ℤ) (size : ℕ) :
    ∀ fuel i, i ≤ fwhmRightWalk a h size fuel i := by
  intro fuel
  induction fuel with
  | zero => intro i; exact le_rfl
  | succ f ih =>
    intro i
    by_cases hc : i < size - 1 ∧ h < getn a i
    · simp only [fwhmRightWalk, if_pos hc]
      exact le_trans (by omega) (ih (i + 1))
    · simp only [fwhmRightWalk, if_neg hc]
      omega

/-- Between the right walk's start and its stop, all samples are above the
half height and strictly before `size - 1`. -/
theorem fwhmRightWalk_interior (a : List ℤ) (h : ℤ) (size : ℕ) :
    ∀ fuel i j, i ≤ j → j < fwhmRightWalk a h size fuel i →
      j < size - 1 ∧ h < getn a j := by
  intro fuel
  induction fuel with
  | zero =>
    intro i j h1 h2
    simp only [fwhmRightWalk] at h2
    omega
  | succ f ih =>
    intro i j h1 h2
    by_cases hc : i < size - 1 ∧ h < getn a i
    · rw [fwhmRightWalk, if_pos hc] at h2
      rcases Nat.eq_or_lt_of_le h1 with rfl | hlt
      · exact hc
      · exact ih (i + 1) j hlt h2
    · rw [fwhmRightWalk, if_neg hc] at h2
      omega

/-- With adequate fuel the right walk stops at the last index or at a
sample at or below the half height. -/
theorem fwhmRightWalk_exit (a : List ℤ) (h : ℤ) (size : ℕ) :
    ∀ fuel i, size - 1 - i ≤ fuel →
      size - 1 ≤ fwhmRightWalk a h size fuel i ∨
      getn a (fwhmRightWalk a h size fuel i) ≤ h := by
  intro fuel
  induction fuel with
  | zero =>
    intro i hf
    left
    simp only [fwhmRightWalk]
    omega
  | succ f ih =>
    intro i hf
    by_cases hc : i < size - 1 ∧ h < getn a i
    · simpa only [fwhmRightWalk, if_pos hc] using ih (i + 1) (by omega)
    · simp only [fwhmRightWalk, if_neg hc]
      rcases not_and_or.mp hc with hc1 | hc2
      · left; omega
      · right; exact not_lt.mp hc2

/-- C8 (confirmed): for a peak index inside the buffer, `calculateFWHM`
returns exactly the whole-sample span `rightIndex - leftIndex` between the
two walks' quantized stopping points around the half-prominence height
(`contourLineHeight + prominence / 2`, equal to `peakValue - prominence/2`;
the final conjunct states that comparing a sample against the
floor-divided height is the same as comparing it against the exact
half-prominence height `peakValue - prominence/2`, i.e. `2⬝sample` against
`2⬝peakValue - prominence`).  No sub-sample interpolation occurs: both
stops are whole indices, the left stop at or left of the peak (stopping at
0 or at the first sample `≤` the height, all strictly-above samples in
between), the right stop symmetric.  The width is a natural number (hence
`≥ 0`) and never exceeds the buffer length `size`. -/
theorem claim_C8 (a : List ℤ) (size pk : ℕ) (prom : ℤ) (L R : ℕ)
    (hpk : pk < size)
    (hL : fwhmLeftWalk a (getn a pk - prom + prom / 2) pk = L)
    (hR : fwhmRightWalk a (getn a pk - prom + prom / 2) size size pk = R) :
    calculateFWHM a size pk prom = R - L ∧
    L ≤ pk ∧ pk ≤ R ∧ R ≤ size - 1 ∧
    calculateFWHM a size pk prom ≤ size ∧
    (L = 0 ∨ getn a L ≤ getn a pk - prom + prom / 2) ∧
    (∀ j, j ≤ pk → L < j → getn a pk - prom + prom / 2 < getn a j) ∧
    (size - 1 ≤ R ∨ getn a R ≤ getn a pk - prom + prom / 2) ∧
    (∀ j, j < R → pk ≤ j → getn a pk - prom + prom / 2 < getn a j) ∧
    (∀ x : ℤ, (getn a pk - prom + prom / 2 < x ↔ 2 * getn a pk - prom < 2 * x)) := by
  have hLle : L ≤ pk := hL ▸ fwhmLeftWalk_le a _ pk
  have hRge : pk ≤ R := hR ▸ fwhmRightWalk_ge a _ size size pk
  have hRle : R ≤ size - 1 := by
    rcases Nat.eq_or_lt_of_le hRge with rfl | hlt
    · omega
    · have := hR ▸ fwhmRightWalk_interior a _ size size pk (R - 1) (by omega)
      omega
  have hfw : calculateFWHM a size pk prom = R - L := by
    simp only [calculateFWHM, hL, hR]
    omega
  refine ⟨hfw, hLle, hRge, hRle, by omega, ?_, ?_, ?_, ?_, fun x => by omega⟩
  · exact hL ▸ fwhmLeftWalk_exit a _ pk
  · intro j hj1 hj2
    exact fwhmLeftWalk_interior a _ pk j (hL ▸ hj2) hj1
  · rcases fwhmRightWalk_exit a (getn a pk - prom + prom / 2) size size pk (by omega)
      with hx | hx
    · left; omega
    · right; exact hR ▸ hx
  · intro j hj1 hj2
    exact (fwhmRightWalk_interior a _ size size pk j hj2 (hR ▸ hj1)).2

/-- C8, witness: a concrete run of the theorem on `[1, 2, 5, 2, 1]` with
peak index 2 and prominence 4 (half height 3, crossings at indices 1 and 3,
width 2). -/
theorem claim_C8_witness :
    calculateFWHM [(1 : ℤ), 2, 5, 2, 1] 5 2 4 = 3 - 1 ∧
    calculateFWHM [(1 : ℤ), 2, 5, 2, 1] 5 2 4 ≤ 5 := by
  have h := claim_C8 [(1 : ℤ), 2, 5, 2, 1] 5 2 4 1 3 (by decide) (by decide) (by decide)
  exact ⟨h.1, h.2.2.2.2.1⟩

/-- C1, counterexample to the claim as stated: on the documented 301-sample
reference curve the engine's returned `peakIndex` is **not** in the
low-to-mid 140s — it exceeds 147 (it is 151, where the curve's maximum
42.145386 actually lies; the curve's values around index 143 are still
rising, ≈ 35.44). -/
theorem claim_C1_counterexample : 147 < (processPeak refCurve 301).2.1 := by decide

/-- C1 (corrected): running the peak engine on the documented 301-sample
reference curve returns `accepted = true` and `edgeCase = false` as
claimed, but `peakIndex = 151`: the curve's maximum 42.145386 sits at
index 151, not "around index ~143", so the returned index is in the low
150s rather than the low-to-mid 140s. -/
theorem claim_C1_amended : processPeak refCurve 301 = (true, 151, false) := by decide
